import Mathlib

/-!
Verification of the signal-generation and virtual-ledger engine of the
trade-strategy-tester repository (src/strategyEngine.js, src/tradeSimulator.js).

JavaScript numbers are embedded as rationals (ℚ); the JavaScript value
`null`/`undefined` is embedded as `Option.none`.  JavaScript falsiness of a
numeric value (`!x`) is `x = none ∨ x = some 0`.  `Date.now()` is modelled as
an explicit `now` parameter threaded into the operations that read the clock.
-/

/-- Trade side / signal value: the strings BUY and SELL of the source. -/
inductive Signal where
  | BUY : Signal
  | SELL : Signal
deriving DecidableEq

/-- One slippage bucket of a PoolPriceTable: `SlippageBasisPoints` (the
dual-cased field access `b.SlippageBasisPoints || b.slippageBasisPoints || 0`
collapses to one integer field, with 0 standing for a missing field) and
`Price` (`none` when the field is missing, mirroring a missing `Price`). -/
structure Bucket where
  slippageBasisPoints : ℤ
  price : Option ℚ
deriving DecidableEq

/-- The fields of the normalized pool snapshot built by `extractPoolData`
that the verified functions read: pool address, timestamp, the selected
bucket table, and the flat `basisPoints → price` object (an association
list with distinct keys as built by the extractor). -/
structure PoolData where
  poolAddress : String
  timestamp : ℚ
  slippageBuckets : List Bucket
  prices : List (ℤ × ℚ)
deriving DecidableEq

/-- JavaScript falsiness of a nullable number: `null`/`undefined` or `0`. -/
def jsFalsy (v : Option ℚ) : Bool :=
  match v with
  | none => true
  | some q => decide (q = 0)

/-- Property lookup `prices[k]` on the flat price object. -/
def lookupPrice (prices : List (ℤ × ℚ)) (k : ℤ) : Option ℚ :=
  (prices.find? (fun kv => decide (kv.1 = k))).map Prod.snd

/-- Ascending-sorted key list of the flat price object, mirroring
`Object.keys(prices).map(k => parseInt(k)).sort((a, b) => a - b)`
in `calculateSlope` (src/strategyEngine.js:152). -/
def sortedBasisPoints (prices : List (ℤ × ℚ)) : List ℤ :=
  (prices.map Prod.fst).mergeSort (fun a b => decide (a ≤ b))

/-- The `reduce` in `calculateSlope` (src/strategyEngine.js:155-157 and
162-164): starting from the first element, keep the basis point with the
strictly smaller absolute distance to `ref`, so the earliest element wins
ties.  `none` when the key list is empty. -/
def closestKey (ref : ℤ) (basisPoints : List ℤ) : Option ℤ :=
  match basisPoints with
  | [] => none
  | k :: ks =>
      some (ks.foldl
        (fun closest bp =>
          if (bp - ref).natAbs < (closest - ref).natAbs then bp else closest) k)

/-- Per-reference price resolution inside `calculateSlope`
(src/strategyEngine.js:145-167): take `prices[ref]`; if that value is falsy
and the key list is nonempty, replace it by the price at the closest key. -/
def resolveRefPrice (prices : List (ℤ × ℚ)) (basisPoints : List ℤ) (ref : ℤ) :
    Option ℚ :=
  if jsFalsy (lookupPrice prices ref) then
    match closestKey ref basisPoints with
    | some k => lookupPrice prices k
    | none => lookupPrice prices ref
  else lookupPrice prices ref

/-- `calculateSlope` (src/strategyEngine.js:142-175).  The final guard
`!price01Value || !price1Value || price01Value === 0` returns `null` when
either resolved value is `null` or `0` (a zero value is falsy, making the
explicit `=== 0` comparison redundant); otherwise the slope is
`(price1Value - price01Value) / price01Value`. -/
def calculateSlope (poolData : PoolData) : Option ℚ :=
  match resolveRefPrice poolData.prices (sortedBasisPoints poolData.prices) 10,
        resolveRefPrice poolData.prices (sortedBasisPoints poolData.prices) 100 with
  | some p01, some p1 =>
      if p01 = 0 ∨ p1 = 0 then none else some ((p1 - p01) / p01)
  | _, _ => none

/-- Record appended to a pool slope history by `updateHistory`
(src/strategyEngine.js:207-211). -/
structure SlopeRecord where
  timestamp : ℚ
  slope : ℚ
  deltaSlope : ℚ
deriving DecidableEq

/-- `maxHistorySize` (src/strategyEngine.js:9). -/
def maxHistorySize : ℕ := 100

/-- The per-pool `slopeHistory` map, with the absent-key default `[]`
(`slopeHistory.get(poolAddress) || []` / the `has`/`set` initialisation). -/
def HistState : Type := String → List SlopeRecord

/-- The body of `updateHistory` acting on one pool history
(src/strategyEngine.js:202-215): compute the delta against the last record,
push `{timestamp, slope, deltaSlope}`, and `shift()` the oldest record when
the length exceeds `maxHistorySize`. -/
def pushRecord (history : List SlopeRecord) (timestamp slope : ℚ) :
    List SlopeRecord :=
  let deltaSlope : ℚ :=
    match history.getLast? with
    | some r => slope - r.slope
    | none => 0
  let h2 := history ++ [⟨timestamp, slope, deltaSlope⟩]
  if maxHistorySize < h2.length then h2.tail else h2

/-- `updateHistory` (src/strategyEngine.js:194-216).  The record timestamp is
`poolData.timestamp || Date.now()`; `Date.now()` is the `now` argument. -/
def updateHistory (st : HistState) (poolData : PoolData) (slope now : ℚ) :
    HistState :=
  fun p =>
    if p = poolData.poolAddress then
      pushRecord (st poolData.poolAddress)
        (if poolData.timestamp = 0 then now else poolData.timestamp) slope
    else st p

/-- `calculateDeltaSlope` (src/strategyEngine.js:180-189): `null` when the
pool history is empty, otherwise `currentSlope` minus the slope of the last
history record. -/
def calculateDeltaSlope (st : HistState) (poolAddress : String)
    (currentSlope : ℚ) : Option ℚ :=
  match (st poolAddress).getLast? with
  | none => none
  | some r => some (currentSlope - r.slope)

/-- `generateSignal` (src/strategyEngine.js:221-239), with the threshold
`config.trading.slopeThreshold` passed as a parameter. -/
def generateSignal (slope deltaSlope : Option ℚ) (threshold : ℚ) :
    Option Signal :=
  match slope, deltaSlope with
  | some s, some d =>
      if d < 0 ∧ s < threshold then some Signal.BUY
      else if d > 0 ∨ s > threshold then some Signal.SELL
      else none
  | _, _ => none

/-- The delta-then-update step of `processPoolData`
(src/strategyEngine.js:271-272): the delta slope is computed from the state
before the new record is appended. -/
def processStep (st : HistState) (poolData : PoolData) (slope now : ℚ) :
    Option ℚ × HistState :=
  (calculateDeltaSlope st poolData.poolAddress slope,
   updateHistory st poolData slope now)

/-- The value found in `TransactionHeader.Time` of a decoded record, as the
branches of `extractPoolData` (src/strategyEngine.js:67-80) distinguish it:
a long-integer object with `low`/`high` parts, a plain number, a string, some
other object, or absent (`TransactionHeader` missing, or `Time` missing or
falsy: the number 0, the empty string, `null`). -/
inductive TimeVal where
  | longInt (low high : ℤ) : TimeVal
  | num (n : ℚ) : TimeVal
  | str (s : String) : TimeVal
  | objOther : TimeVal
  | absent : TimeVal

/-- Leading decimal-digit run of a character list: its value, or `none` when
the list does not start with a digit. -/
def leadingNat (cs : List Char) : Option ℕ :=
  match cs.takeWhile Char.isDigit with
  | [] => none
  | ds => some (ds.foldl (fun acc c => acc * 10 + (c.toNat - 48)) 0)

/-- The JavaScript builtin `parseInt` with the default radix, on the inputs
the verified code can feed it: skip leading whitespace, read an optional
sign and a leading decimal-digit run; `none` models the `NaN` result when no
digit can be parsed.  Hexadecimal `0x` prefixes are not modelled. -/
def jsParseInt (s : String) : Option ℤ :=
  match s.data.dropWhile (fun c => decide (c = ' ') || decide (c = '\t')
      || decide (c = '\n') || decide (c = '\r')) with
  | '-' :: rest => (leadingNat rest).map (fun n => -(n : ℤ))
  | '+' :: rest => (leadingNat rest).map (fun n => (n : ℤ))
  | cs => (leadingNat cs).map (fun n => (n : ℤ))

/-- Timestamp resolution of `extractPoolData` (src/strategyEngine.js:67-80).
`timestamp` starts as `Date.now()` (the `now` argument) and is overwritten
only when the `Time` field is truthy: a `low`/`high` object yields
`low + high * 2^32`, a nonzero number yields itself, and a nonempty string
yields its `parseInt` result — which is `NaN` (modelled `none`) when the
parse fails. -/
def extractTimestamp (now : ℚ) : TimeVal → Option ℚ
  | TimeVal.longInt low high => some ((low : ℚ) + (high : ℚ) * 4294967296)
  | TimeVal.num n => if n = 0 then some now else some n
  | TimeVal.str s =>
      if s = "" then some now else (jsParseInt s).map (fun z => (z : ℚ))
  | TimeVal.objOther => some now
  | TimeVal.absent => some now

/-- A trade of the virtual ledger (src/tradeSimulator.js:68-79). -/
structure Trade where
  id : String
  type : Signal
  amount : ℚ
  entryPrice : ℚ
  exitPrice : Option ℚ
  entryTimestamp : ℚ
  exitTimestamp : Option ℚ
  poolAddress : String
  strategy : String
  slippage : ℚ
deriving DecidableEq

/-- The module state of tradeSimulator.js: the `trades` array, the
`openPosition` reference (modelled as the index of the referenced trade in
`trades`, capturing the in-place aliasing of the source), and
`tradeCounter`. -/
structure SimState where
  trades : List Trade
  openPosition : Option ℕ
  tradeCounter : ℕ
deriving DecidableEq

/-- `resetTrades` (src/tradeSimulator.js:158-162); also the initial module
state. -/
def resetTrades : SimState :=
  { trades := [], openPosition := none, tradeCounter := 0 }

/-- `Math.round`: round half toward positive infinity. -/
def jsRound (q : ℚ) : ℤ := ⌊q + 1 / 2⌋

/-- Price extraction `targetBucket.Price || targetBucket.price || null`
(src/tradeSimulator.js:54): a missing or zero price yields `null`. -/
def bucketPrice (b : Bucket) : Option ℚ :=
  match b.price with
  | some p => if p = 0 then none else some p
  | none => none

/-- The `reduce` of `getExecutionPrice` (src/tradeSimulator.js:44-50):
starting from the first bucket, keep the bucket whose basis points have the
strictly smaller absolute distance to `sbp`, so the earliest bucket in table
order wins ties. -/
def closestBucket (sbp : ℤ) (b : Bucket) (bs : List Bucket) : Bucket :=
  bs.foldl
    (fun closest bucket =>
      if (bucket.slippageBasisPoints - sbp).natAbs
          < (closest.slippageBasisPoints - sbp).natAbs then bucket else closest) b

/-- `getExecutionPrice` (src/tradeSimulator.js:22-56).  The slippage fraction
is converted to basis points by `Math.round(slippage * 10000)`; with an empty
bucket table the flat price object is consulted (`prices[bpKey] ||
prices[slippageBasisPoints] || null`, where the string and numeric property
keys coincide and a zero price is falsy); otherwise the exact-match bucket,
or failing that the closest bucket, supplies the price. -/
def getExecutionPrice (poolData : PoolData) (amount slippage : ℚ) : Option ℚ :=
  let slippageBasisPoints := jsRound (slippage * 10000)
  match poolData.slippageBuckets with
  | [] =>
      if poolData.prices = [] then none
      else
        match lookupPrice poolData.prices slippageBasisPoints with
        | some p => if p = 0 then none else some p
        | none => none
  | b :: bs =>
      let targetBucket :=
        match (b :: bs).find?
            (fun t => decide (t.slippageBasisPoints = slippageBasisPoints)) with
        | some t => t
        | none => closestBucket slippageBasisPoints b bs
      bucketPrice targetBucket

/-- `generateTradeId` (src/tradeSimulator.js:14-16) with the incremented
counter passed in. -/
def generateTradeId (now : ℚ) (counter : ℕ) : String :=
  "trade-" ++ toString now ++ "-" ++ toString counter

/-- `executeBuy` (src/tradeSimulator.js:61-85): resolve an execution price
(throwing — `Except.error` — when it is falsy), then push a new OPEN trade
and point `openPosition` at it.  The thrown error leaves the state
untouched, since the source throws before any mutation. -/
def executeBuy (s : SimState) (poolData : PoolData) (amount slippage : ℚ)
    (strategy : String) (now : ℚ) : Except String (SimState × Trade) :=
  match getExecutionPrice poolData amount slippage with
  | none => Except.error "Unable to determine execution price for BUY"
  | some price =>
      if price = 0 then Except.error "Unable to determine execution price for BUY"
      else
        let trade : Trade :=
          { id := generateTradeId now (s.tradeCounter + 1)
            type := Signal.BUY
            amount := amount
            entryPrice := price
            exitPrice := none
            entryTimestamp := now
            exitTimestamp := none
            poolAddress := if poolData.poolAddress = "" then "unknown"
                           else poolData.poolAddress
            strategy := strategy
            slippage := slippage }
        Except.ok
          ({ trades := s.trades ++ [trade]
             openPosition := some s.trades.length
             tradeCounter := s.tradeCounter + 1 }, trade)

/-- `executeSell` (src/tradeSimulator.js:90-114): with no open position,
log and return `null` leaving the state as it was; otherwise resolve an
execution price (throwing when it is falsy, before any mutation), set
`exitPrice`/`exitTimestamp` on the open trade in place, clear the
open-position reference and return the closed trade.  The dangling-index
error branch is a model artifact: the open-position invariant proved below
shows it is unreachable from the exported operations. -/
def executeSell (s : SimState) (poolData : PoolData) (amount slippage : ℚ)
    (strategy : String) (now : ℚ) : Except String (SimState × Option Trade) :=
  match s.openPosition with
  | none => Except.ok (s, none)
  | some i =>
      match getExecutionPrice poolData amount slippage with
      | none => Except.error "Unable to determine execution price for SELL"
      | some price =>
          if price = 0 then
            Except.error "Unable to determine execution price for SELL"
          else
            match s.trades[i]? with
            | none => Except.error "dangling open-position index"
            | some t =>
                let closed : Trade :=
                  { t with exitPrice := some price, exitTimestamp := some now }
                Except.ok
                  ({ s with trades := s.trades.set i closed,
                            openPosition := none }, some closed)

/-- `calculatePnL` (src/tradeSimulator.js:119-129): `0` when `exitPrice` is
falsy (missing or zero), otherwise the signed difference times the amount,
the sign depending on the opening side. -/
def calculatePnL (trade : Trade) : ℚ :=
  match trade.exitPrice with
  | none => 0
  | some exitPrice =>
      if exitPrice = 0 then 0
      else if trade.type = Signal.BUY then
        (exitPrice - trade.entryPrice) * trade.amount
      else (trade.entryPrice - exitPrice) * trade.amount

/-!
Specification-side definitions.  Each follows the words of one claim of the
specification and is compared against the corresponding source-embedded
definition above.
-/

/-- Claim wording for the per-reference price of `calculateSlope`: the price
is taken from the exact bucket if present, and otherwise from the bucket
whose basis-point value has the smallest absolute distance to the reference
(ties resolved toward the smaller value, the first encountered when scanning
the ascending-sorted keys). -/
def claimRefPrice (prices : List (ℤ × ℚ)) (basisPoints : List ℤ) (ref : ℤ) :
    Option ℚ :=
  match lookupPrice prices ref with
  | some p => some p
  | none =>
      match closestKey ref basisPoints with
      | some k => lookupPrice prices k
      | none => none

/-- Claim C4 as stated: slope `(price_at_100bp - price_at_10bp) /
price_at_10bp`, with `null` exactly when either reference price is
unresolved or the 10bp price is exactly zero. -/
def calculateSlopeClaim (poolData : PoolData) : Option ℚ :=
  match claimRefPrice poolData.prices (sortedBasisPoints poolData.prices) 10,
        claimRefPrice poolData.prices (sortedBasisPoints poolData.prices) 100 with
  | some p01, some p1 => if p01 = 0 then none else some ((p1 - p01) / p01)
  | _, _ => none

/-- Claim C4 amended: as stated, except that a reference price of exactly
zero — at either reference, not only at 10bp — also yields `null` (a zero
price is falsy throughout the source). -/
def calculateSlopeAmended (poolData : PoolData) : Option ℚ :=
  match claimRefPrice poolData.prices (sortedBasisPoints poolData.prices) 10,
        claimRefPrice poolData.prices (sortedBasisPoints poolData.prices) 100 with
  | some p01, some p1 =>
      if p01 = 0 ∨ p1 = 0 then none else some ((p1 - p01) / p01)
  | _, _ => none

/-- Claim wording for the nearest bucket of `getExecutionPrice`: the bucket
with minimal absolute basis-point distance, a distance tie going to the
bucket earliest in table order — `List.argmin`, which keeps the first
minimising element. -/
def claimNearestBucket (sbp : ℤ) (buckets : List Bucket) : Option Bucket :=
  buckets.argmin (fun b => (b.slippageBasisPoints - sbp).natAbs)

/-- Claim C6 as stated: convert the slippage fraction to basis points by
rounding, return the exact-match bucket price, else the closest-bucket
price; with an empty bucket table fall back to the flat map, `null` when no
price is found. -/
def execPriceClaim (poolData : PoolData) (amount slippage : ℚ) : Option ℚ :=
  let slippageBasisPoints := jsRound (slippage * 10000)
  match poolData.slippageBuckets with
  | [] => lookupPrice poolData.prices slippageBasisPoints
  | b :: bs =>
      match (b :: bs).find?
          (fun t => decide (t.slippageBasisPoints = slippageBasisPoints)) with
      | some t => t.price
      | none =>
          (claimNearestBucket slippageBasisPoints (b :: bs)).bind
            (fun t => t.price)

/-- Claim C6 amended: as stated, except that a missing or zero price — of
the selected bucket, or of the flat-map entry in the fallback — yields
`null` (zero prices are falsy), and the fallback also yields `null` when
the flat map is empty. -/
def execPriceAmended (poolData : PoolData) (amount slippage : ℚ) : Option ℚ :=
  let slippageBasisPoints := jsRound (slippage * 10000)
  match poolData.slippageBuckets with
  | [] =>
      if poolData.prices = [] then none
      else
        match lookupPrice poolData.prices slippageBasisPoints with
        | some p => if p = 0 then none else some p
        | none => none
  | b :: bs =>
      match (b :: bs).find?
          (fun t => decide (t.slippageBasisPoints = slippageBasisPoints)) with
      | some t => bucketPrice t
      | none =>
          match claimNearestBucket slippageBasisPoints (b :: bs) with
          | some t => bucketPrice t
          | none => none

/-- Claim C9 as stated: a `low`/`high` object yields `low + high * 2^32`, a
plain number yields itself, a string yields its integer parse, and any parse
failure falls back to the wall clock (`now`). -/
def extractTimestampClaim (now : ℚ) : TimeVal → Option ℚ
  | TimeVal.longInt low high => some ((low : ℚ) + (high : ℚ) * 4294967296)
  | TimeVal.num n => some n
  | TimeVal.str s =>
      match jsParseInt s with
      | some z => some ((z : ℚ))
      | none => some now
  | TimeVal.objOther => some now
  | TimeVal.absent => some now

/-- Untrimmed history accumulation: the sequence of records `updateHistory`
appends, in arrival order, with no capacity eviction.  The retention claim
compares the real history against a suffix of this sequence. -/
def pushRecordRaw (history : List SlopeRecord) (timestamp slope : ℚ) :
    List SlopeRecord :=
  history ++
    [⟨timestamp, slope,
      match history.getLast? with
      | some r => slope - r.slope
      | none => 0⟩]

/-- One `updateHistory` call for a fixed pool, packaged as the triple
(pool-data timestamp, slope, wall clock). -/
def historyStep (p : String) (st : HistState) (x : ℚ × ℚ × ℚ) : HistState :=
  updateHistory st ⟨p, x.1, [], []⟩ x.2.1 x.2.2

/-- The records appended by a sequence of `updateHistory` calls for one
pool, in arrival order, without eviction. -/
def appendedRecords (inputs : List (ℚ × ℚ × ℚ)) : List SlopeRecord :=
  inputs.foldl
    (fun h x => pushRecordRaw h (if x.1 = 0 then x.2.2 else x.1) x.2.1) []

/-- A ledger operation: `executeBuy`, `executeSell` or `resetTrades` with
arbitrary arguments. -/
inductive LedgerOp where
  | buy (poolData : PoolData) (amount slippage : ℚ) (strategy : String)
      (now : ℚ) : LedgerOp
  | sell (poolData : PoolData) (amount slippage : ℚ) (strategy : String)
      (now : ℚ) : LedgerOp
  | reset : LedgerOp

/-- Run one ledger operation; a thrown price-resolution failure is caught by
the caller (src/unnamed/part_000, `executeStrategy`) and leaves the module
state unchanged. -/
def runOp (s : SimState) : LedgerOp → SimState
  | LedgerOp.buy pd a sl st now =>
      match executeBuy s pd a sl st now with
      | Except.ok (s2, _) => s2
      | Except.error _ => s
  | LedgerOp.sell pd a sl st now =>
      match executeSell s pd a sl st now with
      | Except.ok (s2, _) => s2
      | Except.error _ => s
  | LedgerOp.reset => resetTrades

/-- The implicit ledger invariant of claim C10: a non-null open-position
reference points at an element of the trades sequence that has no exit
price. -/
def openInvariant (s : SimState) : Prop :=
  ∀ i, s.openPosition = some i →
    ∃ t, s.trades[i]? = some t ∧ t.exitPrice = none

/-!
Concrete inputs used by counterexamples and witnesses.
-/

/-- A snapshot with a single 100bp bucket priced 100. -/
def pdBuy100 : PoolData := ⟨"0xpool", 0, [⟨100, some 100⟩], []⟩

/-- A snapshot with a single 100bp bucket priced 105. -/
def pdSell105 : PoolData := ⟨"0xpool", 0, [⟨100, some 105⟩], []⟩

/-- A snapshot on a different pool, single 100bp bucket priced 50. -/
def pdOtherPool : PoolData := ⟨"0xother", 0, [⟨100, some 50⟩], []⟩

/-- An OPEN trade on pool 0xfirst. -/
def tradePrevOpen : Trade :=
  ⟨"trade-1-1", Signal.BUY, 2, 30, none, 1, none, "0xfirst", "A", 1 / 100⟩

/-- A ledger state holding one open trade. -/
def stateOneOpen : SimState := ⟨[tradePrevOpen], some 0, 1⟩

/-- Price map with an exact 10bp price 2 and an exact 100bp price 0. -/
def pdC4cex : PoolData := ⟨"p", 0, [], [(10, 2), (100, 0)]⟩

/-- Bucket table whose exact-match bucket carries price 0. -/
def pdC6bucketZero : PoolData := ⟨"p", 0, [⟨50, some 0⟩], []⟩

/-- Empty bucket table with a flat-map price 0 at the requested key. -/
def pdC6flatZero : PoolData := ⟨"p", 0, [], [(50, 0)]⟩

/-- A BUY trade whose exit price is exactly zero. -/
def tradeZeroExit : Trade :=
  ⟨"t1", Signal.BUY, 1, 100, some 0, 0, some 1, "p", "A", 1 / 100⟩

/-- A BUY trade closed at 105 from entry 100. -/
def tradeClosed105 : Trade :=
  ⟨"t2", Signal.BUY, 1, 100, some 105, 0, some 7, "p", "A", 1 / 100⟩

/-- A bucketless snapshot on pool 0xhist. -/
def pdHist : PoolData := ⟨"0xhist", 0, [], []⟩

/-- The trade `executeBuy` opens in the round trip of claim C8. -/
def tradeBuyC8 : Trade :=
  { id := generateTradeId 0 1, type := Signal.BUY, amount := 1,
    entryPrice := 100, exitPrice := none, entryTimestamp := 0,
    exitTimestamp := none, poolAddress := "0xpool", strategy := "A",
    slippage := 1 / 100 }

/-- The ledger state after the round-trip `executeBuy`. -/
def stateAfterBuyC8 : SimState := ⟨[tradeBuyC8], some 0, 1⟩

/-- The round-trip trade once closed at 105. -/
def tradeClosedC8 : Trade :=
  { tradeBuyC8 with exitPrice := some 105, exitTimestamp := some 7 }

/-- The ledger state after the round-trip `executeSell`. -/
def stateAfterSellC8 : SimState := ⟨[tradeClosedC8], none, 1⟩

/-!
Helper lemmas.
-/

/-- The closest-key fold returns `ref` itself whenever `ref` occurs among the
candidates: its distance 0 is strictly smaller than every other distance. -/
theorem closestKey_foldl_self (ref : ℤ) :
    ∀ (ks : List ℤ) (acc : ℤ), acc = ref ∨ ref ∈ ks →
      ks.foldl
        (fun closest bp =>
          if (bp - ref).natAbs < (closest - ref).natAbs then bp else closest)
        acc = ref := by
  intro ks
  induction ks with
  | nil =>
      intro acc h
      rcases h with h | h
      · exact h
      · simp at h
  | cons k ks ih =>
      intro acc h
      simp only [List.foldl_cons]
      by_cases hacc : acc = ref
      · subst hacc
        have hstep :
            (if (k - acc).natAbs < (acc - acc).natAbs then k else acc) = acc := by
          simp
        rw [hstep]
        exact ih acc (Or.inl rfl)
      · rcases h with h | h
        · exact absurd h hacc
        · rcases List.mem_cons.mp h with hk | hk
          · subst hk
            have hpos : 0 < (acc - ref).natAbs := by
              rcases Nat.eq_zero_or_pos (acc - ref).natAbs with h0 | h0
              · exact absurd (by omega : acc = ref) hacc
              · exact h0
            have hstep :
                (if (ref - ref).natAbs < (acc - ref).natAbs then ref else acc)
                  = ref := by
              rw [if_pos]
              simpa using hpos
            rw [hstep]
            exact ih ref (Or.inl rfl)
          · exact ih _ (Or.inr hk)

/-- `closestKey` re-selects a reference that is itself a candidate key. -/
theorem closestKey_self {ref : ℤ} {l : List ℤ} (h : ref ∈ l) :
    closestKey ref l = some ref := by
  cases l with
  | nil => simp at h
  | cons k ks =>
      unfold closestKey
      rcases List.mem_cons.mp h with hk | hk
      · exact congrArg some (closestKey_foldl_self ref ks k (Or.inl hk.symm))
      · exact congrArg some (closestKey_foldl_self ref ks k (Or.inr hk))

/-- A successful property lookup means the key occurs in the key list. -/
theorem lookupPrice_mem {prices : List (ℤ × ℚ)} {k : ℤ} {v : ℚ}
    (h : lookupPrice prices k = some v) : k ∈ prices.map Prod.fst := by
  unfold lookupPrice at h
  cases hf : prices.find? (fun kv => decide (kv.1 = k)) with
  | none => rw [hf] at h; simp at h
  | some kv =>
      have hm := List.mem_of_find?_eq_some hf
      have hp : kv.1 = k := by simpa using List.find?_some hf
      exact List.mem_map.mpr ⟨kv, hm, hp⟩

/-- Sorting preserves key membership. -/
theorem mem_sortedBasisPoints {prices : List (ℤ × ℚ)} {k : ℤ}
    (h : k ∈ prices.map Prod.fst) : k ∈ sortedBasisPoints prices :=
  (List.mergeSort_perm (prices.map Prod.fst) _).mem_iff.mpr h

/-- Core of claim C4: the per-reference resolution of `calculateSlope` agrees
with the claim wording.  When the exact price exists and is nonzero the two
coincide immediately; when it does not exist both fall back to the closest
key; when it exists but is zero, the fallback re-selects the exact key
(`closestKey_self`) and returns the same zero price. -/
theorem resolveRefPrice_eq_claim (prices : List (ℤ × ℚ)) (ref : ℤ) :
    resolveRefPrice prices (sortedBasisPoints prices) ref
      = claimRefPrice prices (sortedBasisPoints prices) ref := by
  unfold resolveRefPrice claimRefPrice
  cases hl : lookupPrice prices ref with
  | none => simp [jsFalsy]
  | some q =>
      by_cases hq : q = 0
      · subst hq
        rw [closestKey_self (mem_sortedBasisPoints (lookupPrice_mem hl))]
        simp [jsFalsy, hl]
      · simp [jsFalsy, hl, hq]

/-- `List.argmin` over a nonempty list is the first-wins strict-comparison
fold of the source `reduce`. -/
theorem argmin_cons_eq_foldl {α : Type} (f : α → ℕ) (b : α) (bs : List α) :
    (b :: bs).argmin f
      = some (bs.foldl (fun closest x => if f x < f closest then x else closest) b) := by
  have haux : ∀ (l : List α) (c : α),
      l.foldl (List.argAux fun x y => f x < f y) (some c)
        = some (l.foldl (fun closest x => if f x < f closest then x else closest) c) := by
    intro l
    induction l with
    | nil => intro c; rfl
    | cons x xs ih =>
        intro c
        simp only [List.foldl_cons]
        have hstep : List.argAux (fun a b2 => f a < f b2) (some c) x
            = some (if f x < f c then x else c) := by
          by_cases h : f x < f c <;> simp [List.argAux, h]
        rw [hstep]
        exact ih _
  show (b :: bs).foldl (List.argAux fun x y => f x < f y) none = _
  simp only [List.foldl_cons]
  exact haux bs b

/-- Dropping strictly fewer elements than the length preserves the last
element. -/
theorem getLast?_drop_of_lt {α : Type} :
    ∀ (l : List α) (n : ℕ), n < l.length → (l.drop n).getLast? = l.getLast? := by
  intro l
  induction l with
  | nil => intro n h; simp at h
  | cons a l ih =>
      intro n h
      cases n with
      | zero => rfl
      | succ m =>
          simp only [List.drop_succ_cons]
          have hm : m < l.length := by simpa using h
          rw [ih m hm]
          cases l with
          | nil => simp at hm
          | cons b l2 => rw [List.getLast?_cons_cons]

/-- One step of the capacity argument: if the trimmed history is the
100-suffix of the untrimmed accumulation, the same holds after one more
record.  Both sides append the same record, because the suffix relation
preserves the last element. -/
theorem pushRecord_drop (ht hr : List SlopeRecord) (ts sl : ℚ)
    (hrel : ht = hr.drop (hr.length - maxHistorySize)) :
    pushRecord ht ts sl
      = (pushRecordRaw hr ts sl).drop
          ((pushRecordRaw hr ts sl).length - maxHistorySize) := by
  have hM : maxHistorySize = 100 := rfl
  have hlast : ht.getLast? = hr.getLast? := by
    rcases le_or_lt hr.length maxHistorySize with hle | hlt
    · rw [hrel, Nat.sub_eq_zero_of_le hle, List.drop_zero]
    · rw [hrel]
      exact getLast?_drop_of_lt hr _ (by omega)
  have hlen : ht.length = hr.length - (hr.length - maxHistorySize) := by
    rw [hrel, List.length_drop]
  unfold pushRecord pushRecordRaw
  rw [hlast]
  simp only [List.length_append, List.length_cons, List.length_nil]
  rcases Nat.lt_or_ge hr.length maxHistorySize with hsmall | hbig
  · -- no trimming on either side
    have h0 : hr.length - maxHistorySize = 0 := by omega
    have hht : ht = hr := by rw [hrel, h0, List.drop_zero]
    rw [hht]
    have hcond : ¬ maxHistorySize < hr.length + (0 + 1) := by omega
    have hz : hr.length + (0 + 1) - maxHistorySize = 0 := by omega
    rw [if_neg hcond, hz, List.drop_zero]
  · -- both sides evict down to the most recent 100 records
    have hht100 : ht.length = maxHistorySize := by omega
    have hcond : maxHistorySize < ht.length + (0 + 1) := by omega
    rw [if_pos hcond, ← List.drop_one, List.drop_append_eq_append_drop,
        List.drop_append_eq_append_drop]
    have h1 : 1 - ht.length = 0 := by omega
    have h2 : hr.length + (0 + 1) - maxHistorySize - hr.length = 0 := by omega
    rw [h1, h2, List.drop_zero]
    rw [hrel, List.drop_drop]
    have h3 : hr.length - maxHistorySize + 1
        = hr.length + (0 + 1) - maxHistorySize := by omega
    rw [h3]

/-- Fold form of `pushRecord_drop` over any sequence of (timestamp, slope)
steps. -/
theorem foldl_pushRecord_drop :
    ∀ (steps : List (ℚ × ℚ)) (ht hr : List SlopeRecord),
      ht = hr.drop (hr.length - maxHistorySize) →
      steps.foldl (fun h x => pushRecord h x.1 x.2) ht
        = (steps.foldl (fun h x => pushRecordRaw h x.1 x.2) hr).drop
            ((steps.foldl (fun h x => pushRecordRaw h x.1 x.2) hr).length
              - maxHistorySize) := by
  intro steps
  induction steps with
  | nil => intro ht hr h; simpa using h
  | cons x xs ih =>
      intro ht hr h
      simp only [List.foldl_cons]
      exact ih _ _ (pushRecord_drop _ _ _ _ h)

/-- Evaluating a fold of per-pool `updateHistory` calls at the updated pool
is the corresponding fold of `pushRecord` on that pool history alone. -/
theorem historyStep_foldl (p : String) :
    ∀ (inputs : List (ℚ × ℚ × ℚ)) (st : HistState),
      (inputs.foldl (historyStep p) st) p
        = inputs.foldl
            (fun h x => pushRecord h (if x.1 = 0 then x.2.2 else x.1) x.2.1)
            (st p) := by
  intro inputs
  induction inputs with
  | nil => intro st; rfl
  | cons x xs ih =>
      intro st
      simp only [List.foldl_cons]
      rw [ih]
      have hstep : (historyStep p st x) p
          = pushRecord (st p) (if x.1 = 0 then x.2.2 else x.1) x.2.1 := by
        unfold historyStep updateHistory
        simp
      rw [hstep]

/-- Evaluation rule for `jsRound` at concrete arguments. -/
theorem jsRound_eq_of (q : ℚ) (z : ℤ) (h1 : (z : ℚ) ≤ q + 1 / 2)
    (h2 : q + 1 / 2 < z + 1) : jsRound q = z := by
  unfold jsRound
  exact Int.floor_eq_iff.mpr ⟨h1, h2⟩

/-!
Claim theorems.
-/

/-- Claim C1: `generateSignal` returns `null` if slope or delta slope is
`null`; otherwise BUY if `deltaSlope < 0` and `slope < threshold`; otherwise
SELL if `deltaSlope > 0` or `slope > threshold`; otherwise `null` — and in
particular `null` at the boundary `slope = threshold`, `deltaSlope = 0`. -/
theorem generateSignal_spec (threshold : ℚ) :
    (∀ d, generateSignal none d threshold = none) ∧
    (∀ s, generateSignal s none threshold = none) ∧
    (∀ s d, d < 0 → s < threshold →
        generateSignal (some s) (some d) threshold = some Signal.BUY) ∧
    (∀ s d, ¬(d < 0 ∧ s < threshold) → (0 < d ∨ threshold < s) →
        generateSignal (some s) (some d) threshold = some Signal.SELL) ∧
    (∀ s d, ¬(d < 0 ∧ s < threshold) → ¬(0 < d ∨ threshold < s) →
        generateSignal (some s) (some d) threshold = none) ∧
    generateSignal (some threshold) (some 0) threshold = none := by
  refine ⟨?_, ?_, ?_, ?_, ?_, ?_⟩
  · intro d; cases d <;> rfl
  · intro s; cases s <;> rfl
  · intro s d h1 h2
    show (if d < 0 ∧ s < threshold then some Signal.BUY
          else if d > 0 ∨ s > threshold then some Signal.SELL else none)
        = some Signal.BUY
    rw [if_pos ⟨h1, h2⟩]
  · intro s d h1 h2
    show (if d < 0 ∧ s < threshold then some Signal.BUY
          else if d > 0 ∨ s > threshold then some Signal.SELL else none)
        = some Signal.SELL
    rw [if_neg h1, if_pos h2]
  · intro s d h1 h2
    show (if d < 0 ∧ s < threshold then some Signal.BUY
          else if d > 0 ∨ s > threshold then some Signal.SELL else none)
        = none
    rw [if_neg h1, if_neg h2]
  · show (if (0 : ℚ) < 0 ∧ threshold < threshold then some Signal.BUY
          else if (0 : ℚ) > 0 ∨ threshold > threshold then some Signal.SELL
          else none)
        = none
    rw [if_neg (by simp), if_neg (by simp)]

/-- Witness for C1: a concrete BUY decision through `generateSignal_spec`. -/
theorem generateSignal_spec_witness :
    generateSignal (some (-1 / 500)) (some (-1 / 2000)) (-1 / 1000)
      = some Signal.BUY :=
  (generateSignal_spec (-1 / 1000)).2.2.1 (-1 / 500) (-1 / 2000)
    (by norm_num) (by norm_num)

/-- Claim C2: a successful `executeBuy` appends the new OPEN trade and
unconditionally points the global open-position slot at it, whatever pool
the previously referenced open trade belongs to; that trade stays in the
ledger, still with no exit price. -/
theorem executeBuy_global_open_slot
    (s : SimState) (poolData : PoolData) (amount slippage : ℚ)
    (strategy : String) (now : ℚ) (i : ℕ) (prev : Trade)
    (s2 : SimState) (t : Trade)
    (hopen : s.openPosition = some i)
    (hprev : s.trades[i]? = some prev)
    (hprevOpen : prev.exitPrice = none)
    (hrun : executeBuy s poolData amount slippage strategy now
      = Except.ok (s2, t)) :
    s2.trades = s.trades ++ [t] ∧
    t.exitPrice = none ∧
    s2.openPosition = some s.trades.length ∧
    s2.trades[i]? = some prev := by
  unfold executeBuy at hrun
  cases hp : getExecutionPrice poolData amount slippage with
  | none => rw [hp] at hrun; exact absurd hrun (by simp)
  | some price =>
      rw [hp] at hrun
      dsimp only at hrun
      by_cases h0 : price = 0
      · rw [if_pos h0] at hrun
        exact absurd hrun (by simp)
      · rw [if_neg h0] at hrun
        injection hrun with hpair
        injection hpair with hs2 ht
        subst hs2
        subst ht
        have hi : i < s.trades.length := by
          by_contra hge
          rw [List.getElem?_eq_none (by omega)] at hprev
          exact Option.noConfusion hprev
        refine ⟨rfl, rfl, rfl, ?_⟩
        dsimp only
        rw [List.getElem?_append, if_pos hi]
        exact hprev

/-- Witness for C2: buying on pool 0xother while pool 0xfirst holds the open
trade, through `executeBuy_global_open_slot`. -/
theorem executeBuy_global_open_slot_witness :
    ∃ s2 t,
      executeBuy stateOneOpen pdOtherPool 1 (1 / 100) "A" 9 = Except.ok (s2, t) ∧
      s2.trades = stateOneOpen.trades ++ [t] ∧
      t.exitPrice = none ∧
      s2.openPosition = some stateOneOpen.trades.length ∧
      s2.trades[0]? = some tradePrevOpen := by
  have hr : jsRound ((100 : ℚ)) = 100 :=
    jsRound_eq_of _ 100 (by norm_num) (by norm_num)
  have hp : getExecutionPrice pdOtherPool 1 (1 / 100) = some 50 := by
    unfold getExecutionPrice pdOtherPool
    norm_num [hr, List.find?, bucketPrice]
  obtain ⟨s2, t, hrun⟩ :
      ∃ s2 t, executeBuy stateOneOpen pdOtherPool 1 (1 / 100) "A" 9
        = Except.ok (s2, t) := by
    unfold executeBuy
    rw [hp]
    dsimp only
    rw [if_neg (show ¬(50 : ℚ) = 0 by norm_num)]
    exact ⟨_, _, rfl⟩
  obtain ⟨h1, h2, h3, h4⟩ :=
    executeBuy_global_open_slot stateOneOpen pdOtherPool 1 (1 / 100) "A" 9 0
      tradePrevOpen s2 t rfl rfl rfl hrun
  exact ⟨s2, t, hrun, h1, h2, h3, h4⟩

/-- Claim C3: any sequence of `updateHistory` calls for one pool leaves that
pool history at most 100 records long, and the retained records are exactly
the most recently appended ones in arrival order — the suffix of the
untrimmed accumulation `appendedRecords`, the oldest evicted first. -/
theorem updateHistory_bounded_fifo (p : String) (inputs : List (ℚ × ℚ × ℚ)) :
    ((inputs.foldl (historyStep p) (fun _ => [])) p).length ≤ maxHistorySize ∧
    (inputs.foldl (historyStep p) (fun _ => [])) p
      = (appendedRecords inputs).drop
          ((appendedRecords inputs).length - maxHistorySize) := by
  have hmain : (inputs.foldl (historyStep p) (fun _ => [])) p
      = (appendedRecords inputs).drop
          ((appendedRecords inputs).length - maxHistorySize) := by
    rw [historyStep_foldl]
    unfold appendedRecords
    have hl : inputs.foldl
        (fun h x => pushRecord h (if x.1 = 0 then x.2.2 else x.1) x.2.1)
        ((fun _ => ([] : List SlopeRecord)) p)
        = (inputs.map (fun x => (if x.1 = 0 then x.2.2 else x.1, x.2.1))).foldl
            (fun h y => pushRecord h y.1 y.2) [] := by
      rw [List.foldl_map]
    have hraw : inputs.foldl
        (fun h x => pushRecordRaw h (if x.1 = 0 then x.2.2 else x.1) x.2.1)
        ([] : List SlopeRecord)
        = (inputs.map (fun x => (if x.1 = 0 then x.2.2 else x.1, x.2.1))).foldl
            (fun h y => pushRecordRaw h y.1 y.2) [] := by
      rw [List.foldl_map]
    rw [hl, hraw]
    exact foldl_pushRecord_drop _ [] [] (by simp)
  refine ⟨?_, hmain⟩
  rw [hmain, List.length_drop]
  omega

/-- Claim C4, counterexample: with an exact 10bp price 2 and an exact 100bp
price 0, the claim wording computes slope `(0 - 2) / 2 = -1` (its `null`
guard covers only an unresolved reference or a zero 10bp price), but
`calculateSlope` returns `null`: the zero 100bp price is falsy, the fallback
re-selects the 100bp key, and the final falsy guard fires. -/
theorem calculateSlope_claim_counterexample :
    calculateSlopeClaim pdC4cex = some (-1) ∧ calculateSlope pdC4cex = none := by
  have hs : sortedBasisPoints pdC4cex.prices = [10, 100] := by
    unfold sortedBasisPoints pdC4cex
    rw [List.mergeSort_eq_self]
    · rfl
    · decide
  constructor
  · unfold calculateSlopeClaim
    rw [hs]
    norm_num [claimRefPrice, lookupPrice, pdC4cex, List.find?]
  · unfold calculateSlope
    rw [hs]
    norm_num [resolveRefPrice, jsFalsy, lookupPrice, pdC4cex, List.find?,
      closestKey]

/-- Claim C4 amended: `calculateSlope` equals the claimed resolution — the
exact bucket price if present, otherwise the price at the basis point with
the smallest absolute distance (ties to the smaller value) — except that a
reference price of exactly zero, at either reference and not only at 10bp,
also yields `null`. -/
theorem calculateSlope_eq_amended (poolData : PoolData) :
    calculateSlope poolData = calculateSlopeAmended poolData := by
  unfold calculateSlope calculateSlopeAmended
  rw [resolveRefPrice_eq_claim, resolveRefPrice_eq_claim]

/-- Claim C5: `calculateDeltaSlope` returns `null` exactly when the pool has
no prior history record, and otherwise `currentSlope` minus the slope of the
most recently recorded entry; in `processPoolData` the difference is taken
from the state before `updateHistory` appends the new record, so a pool's
first observation yields `null` and its second observation, with slopes `s1`
then `s2`, yields `s2 - s1`. -/
theorem calculateDeltaSlope_spec :
    (∀ (st : HistState) (p : String) (cur : ℚ),
        calculateDeltaSlope st p cur = none ↔ st p = []) ∧
    (∀ (st : HistState) (p : String) (cur : ℚ) (r : SlopeRecord),
        (st p).getLast? = some r →
        calculateDeltaSlope st p cur = some (cur - r.slope)) ∧
    (∀ (st : HistState) (pd : PoolData) (slope now : ℚ),
        (processStep st pd slope now).1
          = calculateDeltaSlope st pd.poolAddress slope) ∧
    (∀ (pd1 pd2 : PoolData) (s1 s2 now1 now2 : ℚ),
        pd1.poolAddress = pd2.poolAddress →
        (processStep (fun _ => []) pd1 s1 now1).1 = none ∧
        (processStep ((processStep (fun _ => []) pd1 s1 now1).2) pd2 s2 now2).1
          = some (s2 - s1)) := by
  refine ⟨?_, ?_, fun st pd slope now => rfl, ?_⟩
  · intro st p cur
    constructor
    · intro h
      unfold calculateDeltaSlope at h
      cases hl : (st p).getLast? with
      | none => exact List.getLast?_eq_none_iff.mp hl
      | some r => rw [hl] at h; exact Option.noConfusion h
    · intro h
      unfold calculateDeltaSlope
      rw [h]
      rfl
  · intro st p cur r h
    unfold calculateDeltaSlope
    rw [h]
  · intro pd1 pd2 s1 s2 now1 now2 hp
    refine ⟨rfl, ?_⟩
    unfold processStep calculateDeltaSlope updateHistory
    simp only [← hp, if_pos rfl]
    simp [pushRecord, maxHistorySize]

/-- Witness for C5: first observation `null`, second observation `2 - 1`,
through `calculateDeltaSlope_spec`. -/
theorem calculateDeltaSlope_spec_witness :
    (processStep (fun _ => []) pdHist 1 0).1 = none ∧
    (processStep ((processStep (fun _ => []) pdHist 1 0).2) pdHist 2 0).1
      = some (2 - 1) :=
  calculateDeltaSlope_spec.2.2.2 pdHist pdHist 1 2 0 0 rfl

/-- Claim C6, counterexample: the claim wording returns the found price even
when it is zero, but `getExecutionPrice` treats a zero price as falsy and
returns `null` — both for an exact-match bucket of price 0 and for a
flat-map fallback entry of price 0. -/
theorem getExecutionPrice_claim_counterexample :
    (getExecutionPrice pdC6bucketZero 1 (1 / 200) = none ∧
      execPriceClaim pdC6bucketZero 1 (1 / 200) = some 0) ∧
    (getExecutionPrice pdC6flatZero 1 (1 / 200) = none ∧
      execPriceClaim pdC6flatZero 1 (1 / 200) = some 0) := by
  have hr : jsRound ((50 : ℚ)) = 50 :=
    jsRound_eq_of _ 50 (by norm_num) (by norm_num)
  refine ⟨⟨?_, ?_⟩, ?_, ?_⟩
  · unfold getExecutionPrice pdC6bucketZero
    norm_num [hr, List.find?, bucketPrice]
  · unfold execPriceClaim pdC6bucketZero
    norm_num [hr, List.find?]
  · unfold getExecutionPrice pdC6flatZero
    norm_num [hr, lookupPrice, List.find?]
  · unfold execPriceClaim pdC6flatZero
    norm_num [hr, lookupPrice, List.find?]

/-- Claim C6 amended: `getExecutionPrice` equals the claimed resolution —
`round(fraction * 10000)` basis points, exact-match bucket, else the bucket
at minimal absolute distance with ties to the earliest in table order
(`List.argmin`), else the flat-map fallback — except that a missing or zero
price yields `null`, and the empty flat map also yields `null`. -/
theorem getExecutionPrice_eq_amended (poolData : PoolData)
    (amount slippage : ℚ) :
    getExecutionPrice poolData amount slippage
      = execPriceAmended poolData amount slippage := by
  unfold getExecutionPrice execPriceAmended claimNearestBucket
  cases hb : poolData.slippageBuckets with
  | nil => rfl
  | cons b bs =>
      dsimp only
      cases hf : (b :: bs).find?
          (fun t => decide (t.slippageBasisPoints = jsRound (slippage * 10000))) with
      | some t => rfl
      | none =>
          dsimp only
          rw [argmin_cons_eq_foldl]
          rfl

/-- Claim C7: with no open-position reference, `executeSell` returns `null`
and leaves the ledger state exactly as it was, raising no price-resolution
failure. -/
theorem executeSell_no_open_position
    (s : SimState) (poolData : PoolData) (amount slippage : ℚ)
    (strategy : String) (now : ℚ) (h : s.openPosition = none) :
    executeSell s poolData amount slippage strategy now = Except.ok (s, none) := by
  unfold executeSell
  rw [h]

/-- Witness for C7 at the freshly reset ledger, through
`executeSell_no_open_position`. -/
theorem executeSell_no_open_position_witness :
    executeSell resetTrades pdSell105 1 (1 / 100) "A" 0
      = Except.ok (resetTrades, none) :=
  executeSell_no_open_position resetTrades pdSell105 1 (1 / 100) "A" 0 rfl

/-- Claim C8, counterexample: a BUY trade with exit price exactly 0 has
`calculatePnL = 0` (a zero exit price is falsy), not the claimed
`(exitPrice - entryPrice) * amount = -100`. -/
theorem calculatePnL_claim_counterexample :
    tradeZeroExit.type = Signal.BUY ∧ tradeZeroExit.exitPrice = some 0 ∧
    calculatePnL tradeZeroExit = 0 ∧
    ((0 : ℚ) - tradeZeroExit.entryPrice) * tradeZeroExit.amount = -100 := by
  refine ⟨rfl, rfl, rfl, ?_⟩
  norm_num [tradeZeroExit]

/-- Claim C8 amended: `calculatePnL` is 0 when the exit price is absent or
exactly zero; otherwise `(exitPrice - entryPrice) * amount` for a BUY-opened
trade and `(entryPrice - exitPrice) * amount` for a SELL-opened one; and the
open-then-close round trip at prices 100 then 105 leaves exactly one closed
trade with pnl 5. -/
theorem calculatePnL_spec :
    (∀ t : Trade, t.exitPrice = none ∨ t.exitPrice = some 0 → calculatePnL t = 0) ∧
    (∀ (t : Trade) (ex : ℚ), t.exitPrice = some ex → ex ≠ 0 → t.type = Signal.BUY →
        calculatePnL t = (ex - t.entryPrice) * t.amount) ∧
    (∀ (t : Trade) (ex : ℚ), t.exitPrice = some ex → ex ≠ 0 → t.type = Signal.SELL →
        calculatePnL t = (t.entryPrice - ex) * t.amount) ∧
    (∃ s1 t1 s2 t2,
        executeBuy resetTrades pdBuy100 1 (1 / 100) "A" 0 = Except.ok (s1, t1) ∧
        executeSell s1 pdSell105 1 (1 / 100) "A" 7 = Except.ok (s2, some t2) ∧
        s2.trades = [t2] ∧ t2.exitPrice = some 105 ∧ t2.entryPrice = 100 ∧
        s2.openPosition = none ∧ calculatePnL t2 = 5) := by
  have hr : jsRound ((100 : ℚ)) = 100 :=
    jsRound_eq_of _ 100 (by norm_num) (by norm_num)
  refine ⟨?_, ?_, ?_, ?_⟩
  · intro t h
    rcases h with h | h <;> simp [calculatePnL, h]
  · intro t ex hex hne hty
    unfold calculatePnL
    rw [hex, hty]
    dsimp only
    rw [if_neg hne, if_pos rfl]
  · intro t ex hex hne hty
    unfold calculatePnL
    rw [hex, hty]
    dsimp only
    rw [if_neg hne, if_neg (by simp)]
  · have hp1 : getExecutionPrice pdBuy100 1 (1 / 100) = some 100 := by
      unfold getExecutionPrice pdBuy100
      norm_num [hr, List.find?, bucketPrice]
    have hp2 : getExecutionPrice pdSell105 1 (1 / 100) = some 105 := by
      unfold getExecutionPrice pdSell105
      norm_num [hr, List.find?, bucketPrice]
    have hbuy : executeBuy resetTrades pdBuy100 1 (1 / 100) "A" 0
        = Except.ok (stateAfterBuyC8, tradeBuyC8) := by
      unfold executeBuy
      rw [hp1]
      dsimp only
      rw [if_neg (show ¬(100 : ℚ) = 0 by norm_num)]
      rfl
    have hsell : executeSell stateAfterBuyC8 pdSell105 1 (1 / 100) "A" 7
        = Except.ok (stateAfterSellC8, some tradeClosedC8) := by
      unfold executeSell stateAfterBuyC8
      dsimp only
      rw [hp2]
      dsimp only
      rw [if_neg (show ¬(105 : ℚ) = 0 by norm_num)]
      rfl
    have hpnl : calculatePnL tradeClosedC8 = 5 := by
      unfold calculatePnL tradeClosedC8 tradeBuyC8
      dsimp only
      rw [if_neg (show ¬(105 : ℚ) = 0 by norm_num), if_pos rfl]
      norm_num
    exact ⟨stateAfterBuyC8, tradeBuyC8, stateAfterSellC8, tradeClosedC8,
      hbuy, hsell, rfl, rfl, rfl, rfl, hpnl⟩

/-- Witness for C8: the BUY formula of `calculatePnL_spec` at a concrete
closed trade. -/
theorem calculatePnL_spec_witness : calculatePnL tradeClosed105 = 5 := by
  have h := calculatePnL_spec.2.1 tradeClosed105 105 rfl (by norm_num) rfl
  rw [h]
  norm_num [tradeClosed105]

/-- Claim C9, counterexample: on a string `Time` value that does not parse,
`extractTimestamp` yields the `NaN` of `parseInt` (modelled `none`), not the
claimed wall-clock fallback; and a `Time` value of the number 0 is falsy and
yields the wall clock, not the claimed 0. -/
theorem extractTimestamp_claim_counterexample :
    extractTimestamp 123 (TimeVal.str "oops") = none ∧
    extractTimestampClaim 123 (TimeVal.str "oops") = some 123 ∧
    extractTimestamp 123 (TimeVal.num 0) = some 123 ∧
    extractTimestampClaim 123 (TimeVal.num 0) = some 0 := by
  refine ⟨?_, rfl, ?_, rfl⟩
  · simp [extractTimestamp, jsParseInt, leadingNat]
  · simp [extractTimestamp]

/-- Claim C9 amended: a `low`/`high` object yields `low + high * 2^32`; a
nonzero plain number yields itself, while the falsy number 0 yields the wall
clock; a nonempty string yields its `parseInt` result — `NaN` (modelled
`none`), not the wall clock, when the parse fails — while the falsy empty
string yields the wall clock; anything else yields the wall clock. -/
theorem extractTimestamp_spec (now : ℚ) :
    (∀ low high : ℤ, extractTimestamp now (TimeVal.longInt low high)
        = some ((low : ℚ) + (high : ℚ) * 4294967296)) ∧
    (∀ n : ℚ, n ≠ 0 → extractTimestamp now (TimeVal.num n) = some n) ∧
    extractTimestamp now (TimeVal.num 0) = some now ∧
    (∀ s : String, s ≠ "" → extractTimestamp now (TimeVal.str s)
        = (jsParseInt s).map (fun z => (z : ℚ))) ∧
    extractTimestamp now (TimeVal.str "") = some now ∧
    extractTimestamp now TimeVal.objOther = some now ∧
    extractTimestamp now TimeVal.absent = some now := by
  refine ⟨fun low high => rfl, ?_, ?_, ?_, rfl, rfl, rfl⟩
  · intro n hn
    simp [extractTimestamp, hn]
  · simp [extractTimestamp]
  · intro s hs
    simp [extractTimestamp, hs]

/-- Witness for C9: concrete nonzero number and parsable string, through
`extractTimestamp_spec`. -/
theorem extractTimestamp_spec_witness :
    extractTimestamp 5 (TimeVal.num 7) = some 7 ∧
    extractTimestamp 5 (TimeVal.str "12")
      = (jsParseInt "12").map (fun z => (z : ℚ)) :=
  ⟨(extractTimestamp_spec 5).2.1 7 (by norm_num),
   (extractTimestamp_spec 5).2.2.2.1 "12" (by decide)⟩

/-- Claim C10: after any sequence of `executeBuy`, `executeSell` and
`resetTrades` operations from the initial state, a non-null open-position
reference always designates a trade recorded in the ledger with no exit
price; failed operations leave the state, and hence the invariant,
untouched. -/
theorem ledger_open_invariant (ops : List LedgerOp) :
    openInvariant (ops.foldl runOp resetTrades) := by
  have hstep : ∀ (s : SimState) (op : LedgerOp),
      openInvariant s → openInvariant (runOp s op) := by
    intro s op hs
    cases op with
    | reset =>
        intro i hi
        simp [runOp, resetTrades] at hi
    | buy pd a sl st now =>
        cases hres : executeBuy s pd a sl st now with
        | error e => simpa [runOp, hres] using hs
        | ok res =>
            obtain ⟨s2, t⟩ := res
            simp only [runOp, hres]
            unfold executeBuy at hres
            cases hp : getExecutionPrice pd a sl with
            | none => rw [hp] at hres; exact absurd hres (by simp)
            | some price =>
                rw [hp] at hres
                dsimp only at hres
                by_cases h0 : price = 0
                · rw [if_pos h0] at hres
                  exact absurd hres (by simp)
                · rw [if_neg h0] at hres
                  injection hres with hpair
                  injection hpair with hs2 ht
                  subst hs2
                  intro i hi
                  have : s.trades.length = i := Option.some.inj hi
                  subst this
                  exact ⟨_, List.getElem?_concat_length _ _, rfl⟩
    | sell pd a sl st now =>
        cases hres : executeSell s pd a sl st now with
        | error e => simpa [runOp, hres] using hs
        | ok res =>
            obtain ⟨s2, ot⟩ := res
            simp only [runOp, hres]
            unfold executeSell at hres
            cases ho : s.openPosition with
            | none =>
                rw [ho] at hres
                injection hres with hpair
                injection hpair with hs2 htr
                subst hs2
                exact hs
            | some j =>
                rw [ho] at hres
                cases hp : getExecutionPrice pd a sl with
                | none => rw [hp] at hres; exact absurd hres (by simp)
                | some price =>
                    rw [hp] at hres
                    dsimp only at hres
                    by_cases h0 : price = 0
                    · rw [if_pos h0] at hres
                      exact absurd hres (by simp)
                    · rw [if_neg h0] at hres
                      cases ht : s.trades[j]? with
                      | none => rw [ht] at hres; exact absurd hres (by simp)
                      | some tr =>
                          rw [ht] at hres
                          injection hres with hpair
                          injection hpair with hs2 htr
                          subst hs2
                          intro i hi
                          exact Option.noConfusion hi
  have hfold : ∀ (l : List LedgerOp) (s : SimState),
      openInvariant s → openInvariant (l.foldl runOp s) := by
    intro l
    induction l with
    | nil => intro s hs; exact hs
    | cons op l ih => intro s hs; exact ih _ (hstep s op hs)
  exact hfold ops resetTrades (fun i hi => Option.noConfusion hi)

/-- Witness for C10: after one successful buy, the open reference designates
the recorded open trade, through `ledger_open_invariant`. -/
theorem ledger_open_invariant_witness :
    ∃ t, (([LedgerOp.buy pdBuy100 1 (1 / 100) "A" 0].foldl runOp
      resetTrades).trades)[0]? = some t ∧ t.exitPrice = none := by
  have h := ledger_open_invariant [LedgerOp.buy pdBuy100 1 (1 / 100) "A" 0]
  apply h
  have hr : jsRound ((100 : ℚ)) = 100 :=
    jsRound_eq_of _ 100 (by norm_num) (by norm_num)
  have hp1 : getExecutionPrice pdBuy100 1 (1 / 100) = some 100 := by
    unfold getExecutionPrice pdBuy100
    norm_num [hr, List.find?, bucketPrice]
  show ([LedgerOp.buy pdBuy100 1 (1 / 100) "A" 0].foldl runOp
      resetTrades).openPosition = some 0
  simp only [List.foldl_cons, List.foldl_nil, runOp]
  have hbuy : executeBuy resetTrades pdBuy100 1 (1 / 100) "A" 0
      = Except.ok (stateAfterBuyC8, tradeBuyC8) := by
    unfold executeBuy
    rw [hp1]
    dsimp only
    rw [if_neg (show ¬(100 : ℚ) = 0 by norm_num)]
    rfl
  rw [hbuy]
  rfl
